import Mathlib

/-!
Verification development for the Skilluminati job-analysis pipeline.

Part A embeds the frontend TypeScript services and hooks
(`jobAnalyzerService.ts`, `useJobAnalyzer.ts`) as pure Lean functions over
explicit response/state values.

Part B models the backend pipeline (Context Builder, Insight Engine,
Roadmap Planner, Orchestrator, Artifact Store); its Python source is not
part of this tree, so those definitions are modelled from the
specification and marked as such in their doc comments.
-/

namespace Skilluminati

/-- Characters dropped from both ends by JavaScript `String.prototype.trim`
and Python `str.strip` (modelled as Lean whitespace). -/
def trimChars (l : List Char) : List Char :=
  ((l.dropWhile Char.isWhitespace).reverse.dropWhile Char.isWhitespace).reverse

/-- Executable embedding of `.trim()` on strings. -/
def jsTrim (s : String) : String := ⟨trimChars s.data⟩

/-- Executable embedding of lower-casing, used for all case-insensitive
name comparisons in the pipeline. -/
def lowerStr (s : String) : String := ⟨s.data.map Char.toLower⟩

/-! ## Part A: frontend embedding (from source) -/

namespace FE

/-- One entry of the `skills` array of a raw `/analyze-jd` response body
(`AnalyzeJobDescriptionResponse` in `jobAnalyzerService.ts`). -/
structure RawSkillResp where
  name : String
  priority : String
  importance_score : Int
  why : String
deriving DecidableEq, Repr

/-- One entry of the `company_insights` array of a raw response body. -/
structure RawInsightResp where
  title : String
  url : String
  content : String
  skills_used : List String
  relevance : String
deriving DecidableEq, Repr

/-- The raw JSON body of a successful `/analyze-jd` response; every field is
optional, as in the TypeScript type `AnalyzeJobDescriptionResponse`. -/
structure AnalyzeRawBody where
  role : Option String
  skills : Option (List RawSkillResp)
  jd_id : Option String
  company_insights : Option (List RawInsightResp)
deriving DecidableEq, Repr

/-- The frontend `AnalyzedSkill` record (`types/jobAnalyzer.ts`). -/
structure AnalyzedSkill where
  name : String
  priority : String
  importanceScore : Int
  rationale : String
deriving DecidableEq, Repr

/-- The frontend `CompanyInsight` record (`types/jobAnalyzer.ts`). -/
structure CompanyInsight where
  title : String
  url : String
  content : String
  skillsUsed : List String
  relevance : String
deriving DecidableEq, Repr

/-- The frontend `JobAnalysis` record (`types/jobAnalyzer.ts`). -/
structure JobAnalysis where
  role : String
  jdId : String
  skills : List AnalyzedSkill
  companyInsights : List CompanyInsight
deriving DecidableEq, Repr

/-- A parsed error body: the optional `detail` and `message` fields the
service reads off a non-ok response. -/
structure ErrorBody where
  detail : Option String
  message : Option String
deriving DecidableEq, Repr

/-- The outcome of the `fetch` call as seen by `analyzeJobDescription`:
either an ok response with a parsed body, or a non-ok response whose body
parsed to `errorBody` (`none` when `response.json()` rejected). -/
inductive FetchResponse where
  | ok (body : AnalyzeRawBody)
  | notOk (errorBody : Option ErrorBody)
deriving DecidableEq, Repr

/-- JavaScript `x || d` for an optional string `x`: the default is taken
when `x` is nullish or the empty string (falsy). -/
def jsOrDefault : Option String → String → String
  | none, d => d
  | some s, d => if s = "" then d else s

/-- The error message computed by the service on a non-ok response:
`(errorBody && (errorBody.detail ?? errorBody.message)) || default`. -/
def errorMessageOf (body : Option ErrorBody) (d : String) : String :=
  match body with
  | none => d
  | some b => jsOrDefault (b.detail.or b.message) d

/-- Embedding of `analyzeJobDescription` (`jobAnalyzerService.ts`): on a
non-ok response it throws the computed error message; on an ok response it
totalizes the optional fields and renames `importance_score`/`why` to
`importanceScore`/`rationale`. -/
def analyzeJobDescription (resp : FetchResponse) : Except String JobAnalysis :=
  match resp with
  | .notOk body => .error (errorMessageOf body "Failed to analyze job description")
  | .ok raw =>
      .ok
        { role := raw.role.getD ""
          jdId := raw.jd_id.getD ""
          skills := (raw.skills.getD []).map fun s =>
            { name := s.name, priority := s.priority
              importanceScore := s.importance_score, rationale := s.why }
          companyInsights := (raw.company_insights.getD []).map fun i =>
            { title := i.title, url := i.url, content := i.content
              skillsUsed := i.skills_used, relevance := i.relevance } }

/-- The `EMPTY_ANALYSIS` constant of `useJobAnalyzer.ts`. -/
def EMPTY_ANALYSIS : JobAnalysis :=
  { role := "", jdId := "", skills := [], companyInsights := [] }

/-- The hook state of `useJobAnalyzer.ts`. -/
structure AnalyzerState where
  jdText : String
  analysis : JobAnalysis
  isLoading : Bool
  error : Option String
  resumeFile : Option String
deriving DecidableEq, Repr

/-- Embedding of `handleAnalyze` (`useJobAnalyzer.ts`). `outcome` is the
settled result of the `analyzeJobDescription` call (the thrown error's
`message` field may be absent, hence `Option String`). Returns the final
hook state together with a flag recording whether the network request was
issued. Guard first: a blank `jdText` returns before any request; otherwise
the try/catch/finally runs, so `isLoading` ends `false`, success stores the
result with `error` cleared, and failure stores `EMPTY_ANALYSIS` with the
failure message (or its fallback). -/
def handleAnalyze (outcome : Except (Option String) JobAnalysis)
    (s : AnalyzerState) : AnalyzerState × Bool :=
  if jsTrim s.jdText = "" then (s, false)
  else
    match outcome with
    | .ok result =>
        ({ s with analysis := result, isLoading := false, error := none }, true)
    | .error msg =>
        ({ s with analysis := EMPTY_ANALYSIS, isLoading := false
                  error := some (msg.getD "Something went wrong") }, true)

end FE

/-! ## Part B: backend model

The backend Python package (`app/core`, `app/models`, `app/db`, `main.py`)
is not part of this tree; the definitions below are modelled from the
specification (§3, §4) and the backend API documentation. Opaque string
identifiers (`jd_…`, `roadmap_…`) are modelled by their unique numeric
suffix drawn from a per-store counter. -/

/-- Modelled from the spec: the error taxonomy of §7 for the operations
under study. -/
inductive Err where
  | inputError
  | unsupportedFormatError
  | notFoundError
  | dependencyError
deriving DecidableEq, Repr

/-- Modelled from the spec: one skill record as produced by the upstream
text-understanding capability, before validation (its score may lie outside
[0,10]). -/
structure RawSkill where
  name : String
  priority : String
  importance_score : Int
  rationale : String
deriving DecidableEq, Repr

/-- Modelled from the spec: a validated skill of a `SkillProfile` (§3). -/
structure Skill where
  name : String
  priority : String
  importance_score : Int
  rationale : String
deriving DecidableEq, Repr

/-- Modelled from the spec: the `SkillProfile` produced by the Context
Builder (§3). -/
structure SkillProfile where
  role : String
  skills : List Skill
  candidate_skills : List String
deriving DecidableEq, Repr

/-- Modelled from the spec: a `CompanyInsight` record (§3). -/
structure CompanyInsight where
  title : String
  url : String
  content : String
  skills_used : List String
  relevance : String
deriving DecidableEq, Repr

/-- Modelled from the spec: a persisted `JdAnalysis` (§3); `jd_id` and
`owner` are the numeric identifier suffix and the owning principal. The
candidate skills are kept alongside so the planner can compute the gap at
roadmap time. -/
structure JdAnalysis where
  jd_id : Nat
  role : String
  skills : List Skill
  candidate_skills : List String
  company_insights : List CompanyInsight
  owner : Nat
deriving DecidableEq, Repr

/-- Modelled from the spec: a learning resource of a phase (§3). -/
structure Resource where
  type : String
  title : String
  url : String
  description : String
deriving DecidableEq, Repr

/-- Modelled from the spec: a practice project of a phase (§3). -/
structure Project where
  title : String
  description : String
  difficulty : String
deriving DecidableEq, Repr

/-- Modelled from the spec: one weekly `Phase` of a roadmap (§3). -/
structure Phase where
  week : Nat
  skills : List String
  resources : List Resource
  projects : List Project
  description : String
deriving DecidableEq, Repr

/-- Modelled from the spec: a persisted `Roadmap` (§3). -/
structure Roadmap where
  roadmap_id : Nat
  jd_id : Nat
  role : String
  phases : List Phase
  total_skills : Nat
  estimated_weeks : Nat
  owner : Nat
deriving DecidableEq, Repr

/-- Modelled from the spec: the process-lifetime Artifact Store (§2, §3),
with the counters backing fresh identifier allocation. -/
structure Store where
  analyses : List JdAnalysis
  roadmaps : List Roadmap
  nextJd : Nat
  nextRoadmap : Nat
deriving DecidableEq, Repr

/-- Modelled from the spec: the output of the external text-understanding
capability for one `analyze` request (role, raw skills, and the candidate
skills parsed from the resume). -/
structure Extraction where
  role : String
  raw_skills : List RawSkill
  candidate_skills : List String
deriving DecidableEq, Repr

/-! ### Context Builder (§4.1), modelled from the spec -/

/-- Modelled from the spec: clamp `importance_score` into `[0,10]` rather
than rejecting out-of-range upstream values (§4.1). -/
def clampSkill (r : RawSkill) : Skill :=
  { name := r.name, priority := r.priority
    importance_score := max 0 (min 10 r.importance_score)
    rationale := r.rationale }

/-- Modelled from the spec: among a group of duplicate skills, keep the
occurrence with the higher importance score (the earliest of the maximal
ones). -/
def bestOf (s : Skill) : List Skill → Skill
  | [] => s
  | t :: ts => if s.importance_score < t.importance_score then bestOf t ts else bestOf s ts

/-- Modelled from the spec: deduplication worker. The `fuel` argument only
makes the recursion structural; `dedupSkills` supplies enough fuel that it
never runs out (each step strictly shrinks the list). -/
def dedupGo : Nat → List Skill → List Skill
  | 0, _ => []
  | _, [] => []
  | fuel + 1, s :: rest =>
      let key := lowerStr s.name
      bestOf s (rest.filter fun t => lowerStr t.name == key)
        :: dedupGo fuel (rest.filter fun t => lowerStr t.name != key)

/-- Modelled from the spec: deduplicate skill names case-insensitively,
keeping the occurrence with the higher importance score (§4.1). -/
def dedupSkills (l : List Skill) : List Skill := dedupGo l.length l

/-- Modelled from the spec: stable insertion of a skill into a list sorted
by descending importance score; an element inserted later is placed after
every earlier element of equal score. -/
def insertByScore (s : Skill) : List Skill → List Skill
  | [] => [s]
  | t :: ts =>
      if t.importance_score ≤ s.importance_score then s :: t :: ts
      else t :: insertByScore s ts

/-- Modelled from the spec: stable sort by descending importance score,
ties broken by original order (§4.1). -/
def sortByScore : List Skill → List Skill
  | [] => []
  | s :: rest => insertByScore s (sortByScore rest)

/-- Modelled from the spec: the Context Builder's validation of the raw
extraction output — clamp scores, deduplicate case-insensitively keeping
the higher score, sort by descending score (stable), cap at 8 (§4.1). -/
def processSkills (raws : List RawSkill) : List Skill :=
  (sortByScore (dedupSkills (raws.map clampSkill))).take 8

/-! ### Insight Engine (§4.2), modelled from the spec -/

/-- Modelled from the spec: one result returned by the external search
capability. -/
structure SearchResult where
  title : String
  url : String
  content : String
deriving DecidableEq, Repr

/-- Modelled from the spec: the external search capability — a query
either fails (timeout, quota, missing credential) or yields results. -/
def Searcher : Type := String → Except Unit (List SearchResult)

/-- Substring test on character lists (executable). -/
def subAt : List Char → List Char → Bool
  | [], _ => true
  | _ :: _, [] => false
  | a :: as, b :: bs => a == b && subAt as bs

/-- `containsSub n h` holds when `n` occurs contiguously inside `h`. -/
def containsSub (n : List Char) : List Char → Bool
  | [] => n.isEmpty
  | h :: hs => subAt n (h :: hs) || containsSub n hs

/-- Modelled from the spec: the profile skills whose names occur
(case-insensitively) in a result's content — the keyword overlap used for
the relevance heuristic (§4.2). -/
def matchedSkills (profile : SkillProfile) (content : String) : List Skill :=
  profile.skills.filter fun s =>
    containsSub (lowerStr s.name).data (lowerStr content).data

/-- Modelled from the spec: relevance tag — high if ≥2 skill names matched,
medium if 1, low otherwise (§4.2). -/
def relevanceOf (profile : SkillProfile) (content : String) : String :=
  let m := (matchedSkills profile content).length
  if 2 ≤ m then "high" else if m = 1 then "medium" else "low"

/-- Modelled from the spec: the fixed topic list — company tech stack plus
up to 3 top-priority skills (§4.2). -/
def topics (profile : SkillProfile) : List String :=
  (profile.role ++ " company tech stack") :: (profile.skills.take 3).map Skill.name

/-- Modelled from the spec: the insights contributed by one topic; a failed
query contributes zero insights for that topic (§4.2). -/
def topicInsights (profile : SkillProfile) (f : Searcher) (t : String) :
    List CompanyInsight :=
  match f t with
  | .error _ => []
  | .ok results => results.map fun r =>
      { title := r.title, url := r.url, content := r.content
        skills_used := (matchedSkills profile r.content).map Skill.name
        relevance := relevanceOf profile r.content }

/-- Modelled from the spec: `enrich` — with the capability unconfigured the
engine short-circuits to an empty sequence; otherwise topics are queried
and aggregated in topic submission order (§4.2). -/
def enrich (cap : Option Searcher) (profile : SkillProfile) : List CompanyInsight :=
  match cap with
  | none => []
  | some f => (topics profile).flatMap (topicInsights profile f)

/-! ### Roadmap Planner (§4.3), modelled from the spec -/

/-- Modelled from the spec: a gap skill is one whose name is not present
(case-insensitively) among the candidate's skills. -/
def gapPred (cand : List String) (s : Skill) : Bool :=
  ! cand.any fun c => lowerStr c == lowerStr s.name

/-- Modelled from the spec: the skills the planner works from — the skill
gap, or all profile skills unfiltered when the gap is empty (§4.3). -/
def usedSkills (skills : List Skill) (cand : List String) : List Skill :=
  let gap := skills.filter (gapPred cand)
  if gap.isEmpty then skills else gap

/-- Modelled from the spec: the generic documentation-search resource the
planner substitutes when generation yields no resource for a phase with
skills (§4.3). -/
def genericResource : Resource :=
  { type := "docs", title := "Official documentation search", url := ""
    description := "Search the official documentation for the skills of this phase" }

/-- Modelled from the spec: build one weekly phase; every phase with ≥1
skill gets ≥1 resource, substituting `genericResource` when the generation
step yields none (§4.3). -/
def mkPhase (gen : String → List Resource) (proj : String → List Project)
    (week : Nat) (descr : String) (names : List String) : Phase :=
  let rs := names.flatMap gen
  { week := week, skills := names
    resources := if names.isEmpty then rs else if rs.isEmpty then [genericResource] else rs
    projects := names.flatMap proj
    description := descr }

/-- Modelled from the spec: `plan` — slice the importance-sorted skill list
into thirds by ceiling division, stamping weeks 1, 2, 3 and the fixed stage
labels (§4.3). The resource/project generation step is passed in as the
external capability it is. -/
def plan (gen : String → List Resource) (proj : String → List Project)
    (profile : SkillProfile) (cand : List String) : List Phase :=
  let names := (usedSkills profile.skills cand).map Skill.name
  let k := (names.length + 2) / 3
  [ mkPhase gen proj 1 "Beginner phase: fundamentals and basics" (names.take k),
    mkPhase gen proj 2 "Intermediate phase: practical application" ((names.drop k).take k),
    mkPhase gen proj 3 "Job-ready phase: advanced, production-level work" (names.drop (2 * k)) ]

/-! ### Pipeline Orchestrator (§4.4), modelled from the spec -/

/-- Modelled from the spec: `analyze` — validate the JD text, run the
Context Builder and then the best-effort Insight Engine, allocate a fresh
`jd_id`, store and return the `JdAnalysis` (§4.4). The extraction output of
the external text-understanding capability is passed in as a value. -/
def analyze (cap : Option Searcher) (ext : Extraction) (jd_text : String)
    (owner : Nat) (store : Store) : Except Err (JdAnalysis × Store) :=
  if jsTrim jd_text = "" then .error .inputError
  else
    let skills := processSkills ext.raw_skills
    let profile : SkillProfile :=
      { role := ext.role, skills := skills, candidate_skills := ext.candidate_skills }
    let a : JdAnalysis :=
      { jd_id := store.nextJd, role := ext.role, skills := skills
        candidate_skills := ext.candidate_skills
        company_insights := enrich cap profile, owner := owner }
    .ok (a, { store with analyses := store.analyses ++ [a], nextJd := store.nextJd + 1 })

/-- Modelled from the spec: `generate_roadmap` — load the `JdAnalysis`
scoped to the owner (absent or foreign-owned both fail with
`NotFoundError`), invoke the planner, allocate a fresh `roadmap_id`, store
and return the `Roadmap` (§4.4). -/
def generate_roadmap (gen : String → List Resource) (proj : String → List Project)
    (jd_id : Nat) (owner : Nat) (store : Store) : Except Err (Roadmap × Store) :=
  match store.analyses.find? (fun a => a.jd_id == jd_id) with
  | none => .error .notFoundError
  | some a =>
      if a.owner == owner then
        let profile : SkillProfile :=
          { role := a.role, skills := a.skills, candidate_skills := a.candidate_skills }
        let phases := plan gen proj profile a.candidate_skills
        let r : Roadmap :=
          { roadmap_id := store.nextRoadmap, jd_id := jd_id, role := a.role
            phases := phases
            total_skills := (usedSkills a.skills a.candidate_skills).length
            estimated_weeks := phases.length, owner := owner }
        .ok (r, { store with roadmaps := store.roadmaps ++ [r]
                             nextRoadmap := store.nextRoadmap + 1 })
      else .error .notFoundError

/-! ## Supporting lemmas -/

theorem mem_insertByScore {x s : Skill} {l : List Skill} :
    x ∈ insertByScore s l ↔ x = s ∨ x ∈ l := by
  induction l with
  | nil => simp [insertByScore]
  | cons t ts ih =>
      by_cases h : t.importance_score ≤ s.importance_score
      · simp [insertByScore, h]
      · simp [insertByScore, h, ih]
        tauto

theorem insertByScore_perm (s : Skill) (l : List Skill) :
    List.Perm (insertByScore s l) (s :: l) := by
  induction l with
  | nil => exact List.Perm.refl _
  | cons t ts ih =>
      by_cases h : t.importance_score ≤ s.importance_score
      · simp [insertByScore, h]
      · simp only [insertByScore, h, if_false]
        exact (ih.cons t).trans (List.Perm.swap s t ts)

theorem sortByScore_perm (l : List Skill) : List.Perm (sortByScore l) l := by
  induction l with
  | nil => exact List.Perm.refl _
  | cons s rest ih =>
      exact (insertByScore_perm s (sortByScore rest)).trans (ih.cons s)

theorem pairwise_insertByScore {s : Skill} {l : List Skill}
    (h : l.Pairwise fun a b => b.importance_score ≤ a.importance_score) :
    (insertByScore s l).Pairwise fun a b => b.importance_score ≤ a.importance_score := by
  induction l with
  | nil => simp [insertByScore]
  | cons t ts ih =>
      rw [List.pairwise_cons] at h
      by_cases hts : t.importance_score ≤ s.importance_score
      · rw [insertByScore, if_pos hts, List.pairwise_cons]
        refine ⟨?_, List.pairwise_cons.mpr h⟩
        intro b hb
        rcases List.mem_cons.mp hb with rfl | hb
        · exact hts
        · exact le_trans (h.1 b hb) hts
      · rw [insertByScore, if_neg hts, List.pairwise_cons]
        refine ⟨?_, ih h.2⟩
        intro b hb
        rcases mem_insertByScore.mp hb with rfl | hb
        · exact le_of_lt (lt_of_not_le hts)
        · exact h.1 b hb

theorem sortByScore_sorted (l : List Skill) :
    (sortByScore l).Pairwise fun a b => b.importance_score ≤ a.importance_score := by
  induction l with
  | nil => simp [sortByScore]
  | cons s rest ih => exact pairwise_insertByScore ih

theorem filter_insertByScore (s : Skill) (l : List Skill) (c : Int) :
    (insertByScore s l).filter (fun t => t.importance_score == c) =
      if s.importance_score == c
      then s :: l.filter (fun t => t.importance_score == c)
      else l.filter (fun t => t.importance_score == c) := by
  induction l with
  | nil => simp [insertByScore, List.filter_cons, beq_iff_eq]
  | cons t ts ih =>
      by_cases hts : t.importance_score ≤ s.importance_score
      · rw [insertByScore, if_pos hts]
        by_cases hs : s.importance_score = c
        · simp [List.filter_cons, beq_iff_eq, hs]
        · simp [List.filter_cons, beq_iff_eq, hs]
      · rw [insertByScore, if_neg hts]
        by_cases hs : s.importance_score = c
        · have ht : ¬ t.importance_score = c := by
            intro h; exact hts (le_of_eq (h.trans hs.symm))
          simp [List.filter_cons, beq_iff_eq, hs, ht, ih]
        · by_cases ht : t.importance_score = c
          · simp [List.filter_cons, beq_iff_eq, hs, ht, ih]
          · simp [List.filter_cons, beq_iff_eq, hs, ht, ih]

theorem filter_sortByScore (l : List Skill) (c : Int) :
    (sortByScore l).filter (fun t => t.importance_score == c) =
      l.filter (fun t => t.importance_score == c) := by
  induction l with
  | nil => rfl
  | cons s rest ih =>
      rw [sortByScore, filter_insertByScore]
      by_cases hs : s.importance_score = c
      · simp [List.filter_cons, beq_iff_eq, hs, ih]
      · simp [List.filter_cons, beq_iff_eq, hs, ih]

theorem bestOf_mem (l : List Skill) (s : Skill) : bestOf s l ∈ s :: l := by
  induction l generalizing s with
  | nil => simp [bestOf]
  | cons t ts ih =>
      rw [bestOf]
      by_cases h : s.importance_score < t.importance_score
      · rw [if_pos h]
        have := ih t
        simp only [List.mem_cons] at this ⊢
        tauto
      · rw [if_neg h]
        have := ih s
        simp only [List.mem_cons] at this ⊢
        tauto

theorem mem_dedupGo {x : Skill} :
    ∀ (n : Nat) (l : List Skill), x ∈ dedupGo n l → x ∈ l := by
  intro n
  induction n with
  | zero => intro l h; simp [dedupGo] at h
  | succ m ih =>
      intro l h
      match l with
      | [] => simp [dedupGo] at h
      | s :: rest =>
          rw [dedupGo, List.mem_cons] at h
          rcases h with h | h
          · have := bestOf_mem (rest.filter fun t => lowerStr t.name == lowerStr s.name) s
            rw [← h] at this
            rcases List.mem_cons.mp this with h' | h'
            · exact List.mem_cons.mpr (Or.inl h')
            · exact List.mem_cons.mpr (Or.inr (List.mem_of_mem_filter h'))
          · exact List.mem_cons.mpr (Or.inr (List.mem_of_mem_filter (ih _ h)))

theorem dedupGo_keys :
    ∀ (n : Nat) (l : List Skill),
      (dedupGo n l).Pairwise fun a b => lowerStr a.name ≠ lowerStr b.name := by
  intro n
  induction n with
  | zero => intro l; simp [dedupGo]
  | succ m ih =>
      intro l
      match l with
      | [] => simp [dedupGo]
      | s :: rest =>
          rw [dedupGo, List.pairwise_cons]
          refine ⟨?_, ih _⟩
          intro b hb
          have hbkey : lowerStr b.name ≠ lowerStr s.name := by
            have hmem := mem_dedupGo _ _ hb
            have := List.of_mem_filter hmem
            simpa using this
          have hskey : lowerStr (bestOf s (rest.filter fun t =>
              lowerStr t.name == lowerStr s.name)).name = lowerStr s.name := by
            have := bestOf_mem (rest.filter fun t => lowerStr t.name == lowerStr s.name) s
            rcases List.mem_cons.mp this with h' | h'
            · rw [h']
            · have := List.of_mem_filter h'
              simpa using this
          rw [hskey]
          exact fun h => hbkey h.symm

theorem dedupSkills_subset {x : Skill} {l : List Skill} (h : x ∈ dedupSkills l) : x ∈ l :=
  mem_dedupGo _ _ h

theorem dedupSkills_keys (l : List Skill) :
    (dedupSkills l).Pairwise fun a b => lowerStr a.name ≠ lowerStr b.name :=
  dedupGo_keys _ _

theorem bestOf_le (l : List Skill) (s : Skill) :
    s.importance_score ≤ (bestOf s l).importance_score ∧
    ∀ t ∈ l, t.importance_score ≤ (bestOf s l).importance_score := by
  induction l generalizing s with
  | nil => exact ⟨le_refl _, fun t ht => absurd ht (List.not_mem_nil t)⟩
  | cons t ts ih =>
      rw [bestOf]
      by_cases h : s.importance_score < t.importance_score
      · rw [if_pos h]
        obtain ⟨h1, h2⟩ := ih t
        refine ⟨le_trans (le_of_lt h) h1, ?_⟩
        intro u hu
        rcases List.mem_cons.mp hu with rfl | hu
        · exact h1
        · exact h2 u hu
      · rw [if_neg h]
        obtain ⟨h1, h2⟩ := ih s
        refine ⟨h1, ?_⟩
        intro u hu
        rcases List.mem_cons.mp hu with rfl | hu
        · exact le_trans (le_of_not_lt h) h1
        · exact h2 u hu

theorem bestOf_key {s : Skill} {l : List Skill}
    (h : ∀ t ∈ l, lowerStr t.name = lowerStr s.name) :
    lowerStr (bestOf s l).name = lowerStr s.name := by
  rcases List.mem_cons.mp (bestOf_mem l s) with h' | h'
  · rw [h']
  · exact h _ h'

theorem dedupGo_represents :
    ∀ (n : Nat) (l : List Skill), l.length ≤ n → ∀ x ∈ l,
      ∃ y ∈ dedupGo n l, lowerStr y.name = lowerStr x.name ∧
        x.importance_score ≤ y.importance_score := by
  intro n
  induction n with
  | zero =>
      intro l hl x hx
      rw [Nat.le_zero, List.length_eq_zero] at hl
      subst hl
      exact absurd hx (List.not_mem_nil x)
  | succ m ih =>
      intro l hl x hx
      cases l with
      | nil => exact absurd hx (List.not_mem_nil x)
      | cons s rest =>
          have hrest : rest.length ≤ m := by
            rw [List.length_cons] at hl
            omega
          simp only [dedupGo]
          rcases List.mem_cons.mp hx with rfl | hxr
          · refine ⟨bestOf x (rest.filter fun t => lowerStr t.name == lowerStr x.name),
              List.mem_cons_self _ _, ?_, (bestOf_le _ _).1⟩
            apply bestOf_key
            intro t ht
            have := (List.mem_filter.mp ht).2
            simpa using this
          · by_cases hkey : lowerStr x.name = lowerStr s.name
            · have hxf : x ∈ rest.filter (fun t => lowerStr t.name == lowerStr s.name) :=
                List.mem_filter.mpr ⟨hxr, by simpa using hkey⟩
              refine ⟨bestOf s (rest.filter fun t => lowerStr t.name == lowerStr s.name),
                List.mem_cons_self _ _, ?_, (bestOf_le _ _).2 x hxf⟩
              rw [hkey]
              apply bestOf_key
              intro t ht
              have := (List.mem_filter.mp ht).2
              simpa using this
            · have hxd : x ∈ rest.filter (fun t => lowerStr t.name != lowerStr s.name) :=
                List.mem_filter.mpr ⟨hxr, by simpa using hkey⟩
              have hdl : (rest.filter fun t => lowerStr t.name != lowerStr s.name).length ≤ m :=
                le_trans (List.length_filter_le _ _) hrest
              obtain ⟨y, hy, hk, hs⟩ := ih _ hdl x hxd
              exact ⟨y, List.mem_cons_of_mem _ hy, hk, hs⟩

theorem dedupGo_dominates :
    ∀ (n : Nat) (l : List Skill), ∀ x ∈ l, ∀ y ∈ dedupGo n l,
      lowerStr y.name = lowerStr x.name → x.importance_score ≤ y.importance_score := by
  intro n
  induction n with
  | zero =>
      intro l x hx y hy
      simp [dedupGo] at hy
  | succ m ih =>
      intro l x hx y hy hkey
      cases l with
      | nil => exact absurd hx (List.not_mem_nil x)
      | cons s rest =>
          simp only [dedupGo] at hy
          have hgroup : ∀ t ∈ rest.filter (fun t => lowerStr t.name == lowerStr s.name),
              lowerStr t.name = lowerStr s.name := by
            intro t ht
            have := (List.mem_filter.mp ht).2
            simpa using this
          rcases List.mem_cons.mp hy with rfl | hyd
          · have hxs : lowerStr x.name = lowerStr s.name :=
              hkey.symm.trans (bestOf_key hgroup)
            rcases List.mem_cons.mp hx with rfl | hxr
            · exact (bestOf_le _ _).1
            · have hxf : x ∈ rest.filter (fun t => lowerStr t.name == lowerStr s.name) :=
                List.mem_filter.mpr ⟨hxr, by simpa using hxs⟩
              exact (bestOf_le _ _).2 x hxf
          · have hyf := mem_dedupGo _ _ hyd
            have hyk : lowerStr y.name ≠ lowerStr s.name := by
              have := (List.mem_filter.mp hyf).2
              simpa using this
            rcases List.mem_cons.mp hx with rfl | hxr
            · exact absurd hkey hyk
            · have hxd : x ∈ rest.filter (fun t => lowerStr t.name != lowerStr s.name) :=
                List.mem_filter.mpr ⟨hxr, by
                  simp only [bne_iff_ne, ne_eq, decide_eq_true_eq]
                  intro hh
                  exact hyk (hkey.trans hh)⟩
              exact ih _ x hxd y hyd hkey

theorem dedupSkills_represents {x : Skill} {l : List Skill} (hx : x ∈ l) :
    ∃ y ∈ dedupSkills l, lowerStr y.name = lowerStr x.name ∧
      x.importance_score ≤ y.importance_score :=
  dedupGo_represents l.length l (le_refl _) x hx

theorem dedupSkills_dominates {x y : Skill} {l : List Skill} (hx : x ∈ l)
    (hy : y ∈ dedupSkills l) (hkey : lowerStr y.name = lowerStr x.name) :
    x.importance_score ≤ y.importance_score :=
  dedupGo_dominates _ _ x hx y hy hkey

theorem processSkills_mem_dedup {y : Skill} {raws : List RawSkill}
    (hy : y ∈ processSkills raws) : y ∈ dedupSkills (raws.map clampSkill) :=
  (sortByScore_perm _).subset ((List.take_sublist 8 _).subset hy)

theorem processSkills_subset {x : Skill} {raws : List RawSkill}
    (h : x ∈ processSkills raws) : ∃ r ∈ raws, x = clampSkill r := by
  have h1 : x ∈ sortByScore (dedupSkills (raws.map clampSkill)) :=
    (List.take_sublist 8 _).subset h
  have h2 : x ∈ dedupSkills (raws.map clampSkill) :=
    (sortByScore_perm _).subset h1
  have h3 : x ∈ raws.map clampSkill := dedupSkills_subset h2
  rcases List.mem_map.mp h3 with ⟨r, hr, hx⟩
  exact ⟨r, hr, hx.symm⟩

theorem processSkills_bounds {x : Skill} {raws : List RawSkill}
    (h : x ∈ processSkills raws) :
    0 ≤ x.importance_score ∧ x.importance_score ≤ 10 := by
  rcases processSkills_subset h with ⟨r, _, rfl⟩
  refine ⟨le_max_left _ _, ?_⟩
  exact max_le (by norm_num) (min_le_left _ _)

theorem processSkills_keys (raws : List RawSkill) :
    (processSkills raws).Pairwise fun a b => lowerStr a.name ≠ lowerStr b.name := by
  have h1 := dedupSkills_keys (raws.map clampSkill)
  have h2 := ((sortByScore_perm (dedupSkills (raws.map clampSkill))).pairwise_iff
    (fun h hh => h hh.symm)).mpr h1
  exact List.Pairwise.sublist (List.take_sublist 8 _) h2

theorem processSkills_sorted (raws : List RawSkill) :
    (processSkills raws).Pairwise fun a b => b.importance_score ≤ a.importance_score :=
  List.Pairwise.sublist (List.take_sublist 8 _) (sortByScore_sorted _)

theorem processSkills_len (raws : List RawSkill) : (processSkills raws).length ≤ 8 := by
  rw [processSkills, List.length_take]
  exact min_le_left _ _

theorem plan_flatMap_skills (gen : String → List Resource)
    (proj : String → List Project) (profile : SkillProfile) (cand : List String) :
    (plan gen proj profile cand).flatMap Phase.skills =
      (usedSkills profile.skills cand).map Skill.name := by
  set names := (usedSkills profile.skills cand).map Skill.name with hn
  set k := (names.length + 2) / 3 with hk
  have : (plan gen proj profile cand).flatMap Phase.skills =
      names.take k ++ ((names.drop k).take k ++ names.drop (2 * k)) := by
    simp [plan, mkPhase, ← hn, ← hk]
  rw [this]
  have hdrop : names.drop (2 * k) = (names.drop k).drop k := by
    rw [List.drop_drop, Nat.two_mul]
  rw [hdrop, List.take_append_drop, List.take_append_drop]

theorem mkPhase_resources_of_ne {gen : String → List Resource}
    {proj : String → List Project} {week : Nat} {descr : String}
    {names : List String} (h : names ≠ []) :
    (mkPhase gen proj week descr names).resources ≠ [] := by
  have hne : names.isEmpty = false := by
    cases names with
    | nil => exact absurd rfl h
    | cons a l => rfl
  rw [mkPhase]
  simp only [hne, Bool.false_eq_true, if_false]
  by_cases hrs : names.flatMap gen = []
  · simp [hrs]
  · simp [hrs]

/-! ## Concrete sample data used by the witness theorems -/

def gen0 : String → List Resource := fun _ => []

def proj0 : String → List Project := fun _ => []

def sampleSkill : Skill :=
  { name := "Python", priority := "must-have", importance_score := 8
    rationale := "core requirement" }

def sampleProfile : SkillProfile :=
  { role := "Engineer", skills := [sampleSkill], candidate_skills := [] }

def sampleAnalysis : JdAnalysis :=
  { jd_id := 0, role := "Engineer", skills := [sampleSkill], candidate_skills := []
    company_insights := [], owner := 7 }

def sampleStore : Store :=
  { analyses := [sampleAnalysis], roadmaps := [], nextJd := 1, nextRoadmap := 0 }

def sampleRoadmap : Roadmap :=
  { roadmap_id := 0, jd_id := 0, role := "Engineer"
    phases := plan gen0 proj0 sampleProfile []
    total_skills := 1, estimated_weeks := 3, owner := 7 }

def samplePostStore : Store :=
  { analyses := [sampleAnalysis], roadmaps := [sampleRoadmap], nextJd := 1
    nextRoadmap := 1 }

def sampleRoadmap2 : Roadmap := { sampleRoadmap with roadmap_id := 1 }

def emptyStore : Store := { analyses := [], roadmaps := [], nextJd := 0, nextRoadmap := 0 }

def sampleExt : Extraction :=
  { role := "Engineer"
    raw_skills :=
      [ { name := "Python", priority := "must-have", importance_score := 15
          rationale := "core" },
        { name := "python", priority := "nice-to-have", importance_score := 7
          rationale := "dup" },
        { name := "AWS", priority := "must-have", importance_score := -2
          rationale := "cloud" } ]
    candidate_skills := [] }

def failSearcher : Searcher := fun _ => .error ()

def sampleAnalysisOut : JdAnalysis :=
  { jd_id := 0, role := "Engineer"
    skills :=
      [ { name := "Python", priority := "must-have", importance_score := 10
          rationale := "core" },
        { name := "AWS", priority := "must-have", importance_score := 0
          rationale := "cloud" } ]
    candidate_skills := [], company_insights := [], owner := 7 }

def sampleStoreOut : Store :=
  { analyses := [sampleAnalysisOut], roadmaps := [], nextJd := 1, nextRoadmap := 0 }

def samplePostStore2 : Store :=
  { analyses := [sampleAnalysis], roadmaps := [sampleRoadmap, sampleRoadmap2]
    nextJd := 1, nextRoadmap := 2 }

/-! ## Claim theorems -/

/-- C1: for every `SkillProfile` with at least one skill, `plan` returns
exactly 3 phases whose `week` values are the contiguous sequence 1, 2, 3,
and every `Roadmap` returned by `generate_roadmap` has
`estimated_weeks = 3` equal to its number of phases, with the same week
stamping. -/
theorem plan_three_weekly_phases (gen : String → List Resource)
    (proj : String → List Project) (profile : SkillProfile) (cand : List String)
    (_h : profile.skills ≠ []) :
    (plan gen proj profile cand).length = 3 ∧
    (plan gen proj profile cand).map Phase.week = [1, 2, 3] ∧
    ∀ jd owner store r s',
      generate_roadmap gen proj jd owner store = Except.ok (r, s') →
        r.estimated_weeks = r.phases.length ∧ r.estimated_weeks = 3 ∧
        r.phases.map Phase.week = [1, 2, 3] := by
  refine ⟨rfl, by simp [plan, mkPhase], ?_⟩
  intro jd owner store r s' hr
  rcases hfind : store.analyses.find? (fun a => a.jd_id == jd) with _ | a
  · simp [generate_roadmap, hfind] at hr
  · simp only [generate_roadmap, hfind] at hr
    by_cases howner : (a.owner == owner) = true
    · simp only [howner, if_true, Except.ok.injEq, Prod.mk.injEq] at hr
      obtain ⟨h1, _⟩ := hr
      subst h1
      exact ⟨rfl, rfl, by simp [plan, mkPhase]⟩
    · simp [howner] at hr

theorem plan_three_weekly_phases_w :
    (plan gen0 proj0 sampleProfile []).length = 3 ∧
    (plan gen0 proj0 sampleProfile []).map Phase.week = [1, 2, 3] :=
  ⟨(plan_three_weekly_phases gen0 proj0 sampleProfile [] (by decide)).1,
   (plan_three_weekly_phases gen0 proj0 sampleProfile [] (by decide)).2.1⟩

/-- C4: `generate_roadmap` fails with `NotFoundError` both when no analysis
with the given `jd_id` is stored and when the stored analysis is owned by a
different principal; the two failures produce the identical error value, so
the caller cannot distinguish them. -/
theorem roadmap_not_found_uniform (gen : String → List Resource)
    (proj : String → List Project) (jd owner : Nat) (store : Store) :
    (store.analyses.find? (fun a => a.jd_id == jd) = none →
      generate_roadmap gen proj jd owner store = Except.error Err.notFoundError) ∧
    (∀ a, store.analyses.find? (fun a => a.jd_id == jd) = some a → a.owner ≠ owner →
      generate_roadmap gen proj jd owner store = Except.error Err.notFoundError) := by
  constructor
  · intro h
    simp [generate_roadmap, h]
  · intro a h hne
    have : (a.owner == owner) = false := by simp [hne]
    simp [generate_roadmap, h, this]

theorem roadmap_not_found_uniform_w :
    generate_roadmap gen0 proj0 99 7 sampleStore = Except.error Err.notFoundError ∧
    generate_roadmap gen0 proj0 0 9 sampleStore = Except.error Err.notFoundError :=
  ⟨(roadmap_not_found_uniform gen0 proj0 99 7 sampleStore).1 (by decide),
   (roadmap_not_found_uniform gen0 proj0 0 9 sampleStore).2 sampleAnalysis
     (by decide) (by decide)⟩

/-- C5: every phase produced by the planner that contains at least one
skill contains at least one resource; when the generation step yields no
resource for such a phase the planner substitutes the generic
documentation-search resource. -/
theorem plan_phase_has_resource (gen : String → List Resource)
    (proj : String → List Project) (profile : SkillProfile) (cand : List String) :
    (∀ ph ∈ plan gen proj profile cand, ph.skills ≠ [] → ph.resources ≠ []) ∧
    (∀ week descr names, names ≠ [] → names.flatMap gen = [] →
      (mkPhase gen proj week descr names).resources = [genericResource]) := by
  constructor
  · intro ph hph hsk
    simp only [plan, List.mem_cons, List.not_mem_nil, or_false] at hph
    rcases hph with rfl | rfl | rfl <;>
      exact mkPhase_resources_of_ne (by simpa [mkPhase] using hsk)
  · intro week descr names hne hflat
    have hb : names.isEmpty = false := by
      cases names with
      | nil => exact absurd rfl hne
      | cons a l => rfl
    simp [mkPhase, hb, hflat]

theorem plan_phase_has_resource_w :
    (mkPhase gen0 proj0 1 "Beginner phase: fundamentals and basics"
      ["Python"]).resources ≠ [] ∧
    (mkPhase gen0 proj0 1 "w" ["Python"]).resources = [genericResource] :=
  ⟨(plan_phase_has_resource gen0 proj0 sampleProfile []).1
      (mkPhase gen0 proj0 1 "Beginner phase: fundamentals and basics" ["Python"])
      (by decide) (by decide),
   (plan_phase_has_resource gen0 proj0 sampleProfile []).2 1 "w" ["Python"]
      (by decide) (by decide)⟩

/-- C7: the planner slices the skill list into three phases by ceiling
division, so no earlier phase has fewer skills than a later one; and when
the case-insensitive skill gap is empty the profile skills are used
unfiltered, so the phases of a profile with at least one skill always carry
at least one skill overall. -/
theorem plan_partition_thirds (gen : String → List Resource)
    (proj : String → List Project) (profile : SkillProfile) (cand : List String) :
    ((plan gen proj profile cand).map (fun ph => ph.skills.length)).Pairwise
      (fun a b => b ≤ a) ∧
    (profile.skills.filter (gapPred cand) = [] →
      usedSkills profile.skills cand = profile.skills) ∧
    (profile.skills ≠ [] →
      (plan gen proj profile cand).flatMap Phase.skills ≠ []) := by
  refine ⟨?_, ?_, ?_⟩
  · have hmap : (plan gen proj profile cand).map (fun ph => ph.skills.length) =
        [((usedSkills profile.skills cand).map Skill.name).take
            ((((usedSkills profile.skills cand).map Skill.name).length + 2) / 3) |>.length,
         ((((usedSkills profile.skills cand).map Skill.name).drop
            ((((usedSkills profile.skills cand).map Skill.name).length + 2) / 3)).take
            ((((usedSkills profile.skills cand).map Skill.name).length + 2) / 3)).length,
         (((usedSkills profile.skills cand).map Skill.name).drop
            (2 * ((((usedSkills profile.skills cand).map Skill.name).length + 2) / 3))).length] := by
      simp [plan, mkPhase]
    rw [hmap]
    refine List.Pairwise.cons ?_ (List.Pairwise.cons ?_ (List.Pairwise.cons ?_ List.Pairwise.nil))
    · intro b hb
      rcases List.mem_cons.mp hb with rfl | hb
      · simp only [List.length_take, List.length_drop]
        omega
      · rcases List.mem_singleton.mp hb with rfl
        simp only [List.length_take, List.length_drop]
        omega
    · intro b hb
      rcases List.mem_singleton.mp hb with rfl
      simp only [List.length_take, List.length_drop]
      omega
    · intro b hb
      exact absurd hb (List.not_mem_nil b)
  · intro h
    rw [usedSkills, h]
    rfl
  · intro h
    rw [plan_flatMap_skills]
    rw [usedSkills]
    by_cases hgap : (profile.skills.filter (gapPred cand)).isEmpty = true
    · simp only [hgap, if_true]
      simpa using h
    · simp only [hgap, Bool.false_eq_true, if_false]
      intro hc
      rw [List.map_eq_nil_iff] at hc
      rw [hc] at hgap
      exact hgap rfl

theorem plan_partition_thirds_w :
    usedSkills sampleProfile.skills ["python"] = sampleProfile.skills ∧
    (plan gen0 proj0 sampleProfile []).flatMap Phase.skills ≠ [] :=
  ⟨(plan_partition_thirds gen0 proj0 sampleProfile ["python"]).2.1 (by decide),
   (plan_partition_thirds gen0 proj0 sampleProfile []).2.2 (by decide)⟩

/-- C2: for every roadmap returned by `generate_roadmap` over a store whose
analyses carry case-insensitively distinct skill names (as the Context
Builder guarantees), `total_skills` equals the count of distinct skill
names appearing across all of its phases. -/
theorem roadmap_total_skills_distinct (gen : String → List Resource)
    (proj : String → List Project) (jd owner : Nat) (store : Store)
    (r : Roadmap) (s' : Store)
    (hw : ∀ a ∈ store.analyses,
      a.skills.Pairwise fun x y => lowerStr x.name ≠ lowerStr y.name)
    (h : generate_roadmap gen proj jd owner store = Except.ok (r, s')) :
    r.total_skills = ((r.phases.flatMap Phase.skills).dedup).length := by
  rcases hfind : store.analyses.find? (fun a => a.jd_id == jd) with _ | a
  · simp [generate_roadmap, hfind] at h
  · simp only [generate_roadmap, hfind] at h
    by_cases howner : (a.owner == owner) = true
    · simp only [howner, if_true, Except.ok.injEq, Prod.mk.injEq] at h
      obtain ⟨h1, _⟩ := h
      subst h1
      have hpw := hw a (List.mem_of_find?_eq_some hfind)
      have hus : (usedSkills a.skills a.candidate_skills).Pairwise
          (fun x y => lowerStr x.name ≠ lowerStr y.name) := by
        rw [usedSkills]
        by_cases hg : (a.skills.filter (gapPred a.candidate_skills)).isEmpty = true
        · simp only [hg, if_true]
          exact hpw
        · simp only [hg, Bool.false_eq_true, if_false]
          exact List.Pairwise.sublist (List.filter_sublist _) hpw
      have hnames : ((usedSkills a.skills a.candidate_skills).map Skill.name).Nodup := by
        rw [List.Nodup, List.pairwise_map]
        exact hus.imp fun hne heq => hne (by rw [heq])
      dsimp only
      rw [plan_flatMap_skills]
      rw [List.dedup_eq_self.mpr hnames, List.length_map]
    · simp [howner] at h

theorem roadmap_total_skills_distinct_w :
    sampleRoadmap.total_skills =
      ((sampleRoadmap.phases.flatMap Phase.skills).dedup).length :=
  roadmap_total_skills_distinct gen0 proj0 0 7 sampleStore sampleRoadmap
    samplePostStore (by decide) rfl

/-- C3: for every JD text that is non-empty after trimming, `analyze`
succeeds, and the skills of the returned analysis number at most 8, each
carry an importance score in [0,10] (out-of-range upstream scores are
clamped, never rejected — `analyze` succeeds for every extraction output),
no two share a case-insensitive name, and they are sorted by descending
importance score; the sorting step is stable, leaving ties in their
post-deduplication order; and the deduplication keeps the duplicate with
the higher importance score — every clamped input skill has a
representative of the same case-insensitive name with a score at least its
own surviving deduplication, and every returned skill's score dominates
every clamped input occurrence of its name. -/
theorem analyze_skill_contract (cap : Option Searcher) (ext : Extraction)
    (jd_text : String) (owner : Nat) (store : Store)
    (h : jsTrim jd_text ≠ "") :
    (analyze cap ext jd_text owner store).isOk = true ∧
    ∀ a s', analyze cap ext jd_text owner store = Except.ok (a, s') →
      a.skills.length ≤ 8 ∧
      (∀ s ∈ a.skills, 0 ≤ s.importance_score ∧ s.importance_score ≤ 10) ∧
      a.skills.Pairwise (fun x y => lowerStr x.name ≠ lowerStr y.name) ∧
      a.skills.Pairwise (fun x y => y.importance_score ≤ x.importance_score) ∧
      (∀ c : Int,
        (sortByScore (dedupSkills (ext.raw_skills.map clampSkill))).filter
            (fun t => t.importance_score == c) =
          (dedupSkills (ext.raw_skills.map clampSkill)).filter
            (fun t => t.importance_score == c)) ∧
      (∀ x ∈ ext.raw_skills.map clampSkill,
        ∃ y ∈ dedupSkills (ext.raw_skills.map clampSkill),
          lowerStr y.name = lowerStr x.name ∧
          x.importance_score ≤ y.importance_score) ∧
      (∀ x ∈ ext.raw_skills.map clampSkill, ∀ y ∈ a.skills,
        lowerStr y.name = lowerStr x.name →
        x.importance_score ≤ y.importance_score) := by
  constructor
  · simp [analyze, h, Except.isOk, Except.toBool]
  · intro a s' ha
    rw [analyze, if_neg h] at ha
    simp only [Except.ok.injEq, Prod.mk.injEq] at ha
    obtain ⟨ha1, _⟩ := ha
    subst ha1
    refine ⟨processSkills_len _, ?_, processSkills_keys _, processSkills_sorted _,
      fun c => filter_sortByScore _ c, ?_, ?_⟩
    · intro s hs
      exact processSkills_bounds hs
    · intro x hx
      exact dedupSkills_represents hx
    · intro x hx y hy hkey
      exact dedupSkills_dominates hx (processSkills_mem_dedup hy) hkey

theorem analyze_skill_contract_w :
    sampleAnalysisOut.skills.length ≤ 8 ∧
    sampleAnalysisOut.skills.Pairwise
      (fun x y => lowerStr x.name ≠ lowerStr y.name) ∧
    ({ name := "python", priority := "nice-to-have", importance_score := 7
       rationale := "dup" } : Skill).importance_score ≤
      ({ name := "Python", priority := "must-have", importance_score := 10
         rationale := "core" } : Skill).importance_score :=
  ⟨((analyze_skill_contract none sampleExt "backend engineer" 7 emptyStore
      (by decide)).2 sampleAnalysisOut sampleStoreOut rfl).1,
   ((analyze_skill_contract none sampleExt "backend engineer" 7 emptyStore
      (by decide)).2 sampleAnalysisOut sampleStoreOut rfl).2.2.1,
   ((analyze_skill_contract none sampleExt "backend engineer" 7 emptyStore
      (by decide)).2 sampleAnalysisOut sampleStoreOut rfl).2.2.2.2.2.2
     { name := "python", priority := "nice-to-have", importance_score := 7
       rationale := "dup" } (by decide)
     { name := "Python", priority := "must-have", importance_score := 10
       rationale := "core" } (by decide) (by decide)⟩

/-- C6: with the search capability unconfigured the Insight Engine
short-circuits to an empty sequence and `analyze` still succeeds, returning
empty `company_insights` rather than an error; and a single failed topic
query contributes zero insights for that topic while the other topics are
still aggregated. -/
theorem insight_engine_degrades :
    (∀ profile, enrich none profile = []) ∧
    (∀ ext jd_text owner store, jsTrim jd_text ≠ "" →
      (analyze none ext jd_text owner store).isOk = true) ∧
    (∀ ext jd_text owner store a s',
      analyze none ext jd_text owner store = Except.ok (a, s') →
      a.company_insights = []) ∧
    (∀ profile f t e, f t = Except.error e → topicInsights profile f t = []) ∧
    (∀ profile f, enrich (some f) profile =
      (topics profile).flatMap (topicInsights profile f)) := by
  refine ⟨fun profile => rfl, ?_, ?_, ?_, fun profile f => rfl⟩
  · intro ext jd_text owner store h
    simp [analyze, h, Except.isOk, Except.toBool]
  · intro ext jd_text owner store a s' h
    by_cases hjd : jsTrim jd_text = ""
    · simp [analyze, hjd] at h
    · rw [analyze, if_neg hjd] at h
      simp only [Except.ok.injEq, Prod.mk.injEq] at h
      obtain ⟨h1, _⟩ := h
      subst h1
      rfl
  · intro profile f t e hft
    simp [topicInsights, hft]

theorem insight_engine_degrades_w :
    enrich none sampleProfile = [] ∧
    (analyze none sampleExt "backend engineer" 7 emptyStore).isOk = true ∧
    sampleAnalysisOut.company_insights = [] ∧
    topicInsights sampleProfile failSearcher "tech stack" = [] :=
  ⟨insight_engine_degrades.1 sampleProfile,
   insight_engine_degrades.2.1 sampleExt "backend engineer" 7 emptyStore (by decide),
   insight_engine_degrades.2.2.1 sampleExt "backend engineer" 7 emptyStore
     sampleAnalysisOut sampleStoreOut rfl,
   insight_engine_degrades.2.2.2.1 sampleProfile failSearcher "tech stack" () rfl⟩

/-- C8: calling `generate_roadmap` twice with the same `jd_id` and owner
(the second call on the store produced by the first) yields two roadmaps
with distinct `roadmap_id`s but structurally identical `phases`. -/
theorem generate_roadmap_repeat (gen : String → List Resource)
    (proj : String → List Project) (jd owner : Nat)
    (s0 s1 s2 : Store) (r1 r2 : Roadmap)
    (h1 : generate_roadmap gen proj jd owner s0 = Except.ok (r1, s1))
    (h2 : generate_roadmap gen proj jd owner s1 = Except.ok (r2, s2)) :
    r1.roadmap_id ≠ r2.roadmap_id ∧ r1.phases = r2.phases := by
  rcases hfind : s0.analyses.find? (fun a => a.jd_id == jd) with _ | a
  · simp [generate_roadmap, hfind] at h1
  · simp only [generate_roadmap, hfind] at h1
    by_cases howner : (a.owner == owner) = true
    · simp only [howner, if_true, Except.ok.injEq, Prod.mk.injEq] at h1
      obtain ⟨hr1, hs1⟩ := h1
      subst hr1
      subst hs1
      simp only [generate_roadmap, hfind] at h2
      simp only [howner, if_true, Except.ok.injEq, Prod.mk.injEq] at h2
      obtain ⟨hr2, _⟩ := h2
      subst hr2
      refine ⟨?_, rfl⟩
      dsimp only
      omega
    · simp [howner] at h1

theorem generate_roadmap_repeat_w :
    sampleRoadmap.roadmap_id ≠ sampleRoadmap2.roadmap_id ∧
    sampleRoadmap.phases = sampleRoadmap2.phases :=
  generate_roadmap_repeat gen0 proj0 0 7 sampleStore samplePostStore
    samplePostStore2 sampleRoadmap sampleRoadmap2 rfl rfl

/-- C9 counterexample: on a non-ok response whose parsed body has
`detail = ""`, the service does not throw the `detail` field (the empty
string) as the claim states — JavaScript `||` treats it as falsy — but the
fixed default message. -/
theorem analyzeJD_empty_detail_cex :
    FE.analyzeJobDescription (FE.FetchResponse.notOk
        (some { detail := some "", message := none })) =
      Except.error "Failed to analyze job description" ∧
    "Failed to analyze job description" ≠ ("" : String) :=
  ⟨rfl, by decide⟩

/-- C9 (amended): an accepted response totalizes missing fields (absent
`role`/`jd_id` become `""`, absent arrays become `[]`) and carries each
skill's `importance_score` and `why` verbatim into `importanceScore` and
`rationale`; a non-ok response throws the body's `detail` field, else its
`message` field, falling back to the fixed default when the body is absent
or unparsable, when neither field is present, or when the selected field
value is the empty string (JavaScript falsiness). -/
theorem analyzeJD_totalizes_amended :
    (∀ raw : FE.AnalyzeRawBody,
      ∃ j, FE.analyzeJobDescription (FE.FetchResponse.ok raw) = Except.ok j ∧
        j.role = raw.role.getD "" ∧
        j.jdId = raw.jd_id.getD "" ∧
        j.companyInsights.length = (raw.company_insights.getD []).length ∧
        j.skills.map FE.AnalyzedSkill.name =
          (raw.skills.getD []).map FE.RawSkillResp.name ∧
        j.skills.map FE.AnalyzedSkill.importanceScore =
          (raw.skills.getD []).map FE.RawSkillResp.importance_score ∧
        j.skills.map FE.AnalyzedSkill.rationale =
          (raw.skills.getD []).map FE.RawSkillResp.why) ∧
    (FE.analyzeJobDescription (FE.FetchResponse.notOk none) =
      Except.error "Failed to analyze job description") ∧
    (∀ b : FE.ErrorBody, ∀ d, b.detail = some d → d ≠ "" →
      FE.analyzeJobDescription (FE.FetchResponse.notOk (some b)) = Except.error d) ∧
    (∀ b : FE.ErrorBody, ∀ m, b.detail = none → b.message = some m → m ≠ "" →
      FE.analyzeJobDescription (FE.FetchResponse.notOk (some b)) = Except.error m) ∧
    (∀ b : FE.ErrorBody, b.detail = none → b.message = none →
      FE.analyzeJobDescription (FE.FetchResponse.notOk (some b)) =
        Except.error "Failed to analyze job description") ∧
    (∀ b : FE.ErrorBody, b.detail = some "" →
      FE.analyzeJobDescription (FE.FetchResponse.notOk (some b)) =
        Except.error "Failed to analyze job description") ∧
    (∀ b : FE.ErrorBody, b.detail = none → b.message = some "" →
      FE.analyzeJobDescription (FE.FetchResponse.notOk (some b)) =
        Except.error "Failed to analyze job description") := by
  refine ⟨?_, rfl, ?_, ?_, ?_, ?_, ?_⟩
  · intro raw
    refine ⟨_, rfl, rfl, rfl, ?_, ?_, ?_, ?_⟩ <;>
      simp [FE.analyzeJobDescription, List.map_map, Function.comp]
  · intro b d hb hd
    simp [FE.analyzeJobDescription, FE.errorMessageOf, FE.jsOrDefault, Option.or, hb, hd]
  · intro b m hb hm hne
    simp [FE.analyzeJobDescription, FE.errorMessageOf, FE.jsOrDefault, Option.or, hb, hm, hne]
  · intro b hb hm
    simp [FE.analyzeJobDescription, FE.errorMessageOf, FE.jsOrDefault, Option.or, hb, hm]
  · intro b hb
    simp [FE.analyzeJobDescription, FE.errorMessageOf, FE.jsOrDefault, Option.or, hb]
  · intro b hb hm
    simp [FE.analyzeJobDescription, FE.errorMessageOf, FE.jsOrDefault, Option.or, hb, hm]

theorem analyzeJD_totalizes_amended_w :
    FE.analyzeJobDescription (FE.FetchResponse.notOk
        (some { detail := some "boom", message := some "zap" })) =
      Except.error "boom" ∧
    FE.analyzeJobDescription (FE.FetchResponse.notOk
        (some { detail := none, message := some "zap" })) =
      Except.error "zap" :=
  ⟨analyzeJD_totalizes_amended.2.2.1
      { detail := some "boom", message := some "zap" } "boom" rfl (by decide),
   analyzeJD_totalizes_amended.2.2.2.1
      { detail := none, message := some "zap" } "zap" rfl rfl (by decide)⟩

/-- C10: with a blank (empty or whitespace-only) `jdText`, `handleAnalyze`
returns before issuing the request and every piece of hook state is left
unchanged; and whenever the request fails, `analysis` is reset to
`EMPTY_ANALYSIS` and `error` is set to the failure message, so a failed run
never keeps a stale analysis next to the error. -/
theorem handleAnalyze_guard_reset (s : FE.AnalyzerState)
    (outcome : Except (Option String) FE.JobAnalysis) :
    (jsTrim s.jdText = "" → FE.handleAnalyze outcome s = (s, false)) ∧
    (jsTrim s.jdText ≠ "" → ∀ m, outcome = Except.error (some m) →
      (FE.handleAnalyze outcome s).1.analysis = FE.EMPTY_ANALYSIS ∧
      (FE.handleAnalyze outcome s).1.error = some m ∧
      (FE.handleAnalyze outcome s).1.isLoading = false ∧
      (FE.handleAnalyze outcome s).2 = true) := by
  constructor
  · intro h
    simp [FE.handleAnalyze, h]
  · intro h m hm
    subst hm
    simp [FE.handleAnalyze, h]

def sampleBlankState : FE.AnalyzerState :=
  { jdText := "   ", analysis := FE.EMPTY_ANALYSIS, isLoading := true
    error := some "old failure", resumeFile := none }

def sampleTypedState : FE.AnalyzerState :=
  { jdText := "senior engineer jd"
    analysis := { role := "Old", jdId := "jd_1", skills := [], companyInsights := [] }
    isLoading := true, error := none, resumeFile := none }

theorem handleAnalyze_guard_reset_w :
    FE.handleAnalyze (Except.error (some "boom")) sampleBlankState =
      (sampleBlankState, false) ∧
    (FE.handleAnalyze (Except.error (some "boom")) sampleTypedState).1.analysis =
      FE.EMPTY_ANALYSIS ∧
    (FE.handleAnalyze (Except.error (some "boom")) sampleTypedState).1.error =
      some "boom" :=
  ⟨(handleAnalyze_guard_reset sampleBlankState (Except.error (some "boom"))).1
      (by decide),
   ((handleAnalyze_guard_reset sampleTypedState (Except.error (some "boom"))).2
      (by decide) "boom" rfl).1,
   ((handleAnalyze_guard_reset sampleTypedState (Except.error (some "boom"))).2
      (by decide) "boom" rfl).2.1⟩

end Skilluminati
